import Mathlib

/-!
Verification of the ARQ (automatic repeat request) logic of `udp.cpp`:
stop-and-wait (`clientStopWait` / `serverReliable`) and sliding window
(`clientSlidingWindow` / `ackAdvance` / `serverEarlyRetrans`).

Conventions of the shallow embedding:
* C `int` values are modelled as `Int` (the program never comes near 32-bit
  overflow: sequence numbers live in small rings, counters are bounded by
  `max` = 20000).
* The C `%` operator is truncated division remainder, which on `Int` is
  `Int.tmod` (e.g. `(-2).tmod 3 = -2`), not Lean's Euclidean `%`.
* Socket and timer interaction is environment nondeterminism: each receive
  point takes an `Option Int` (no datagram / datagram with that payload word)
  and each timer check takes a `Bool` (whether `lap() > 1500` fired).
* Arrays are total functions; reads outside the allocated range return
  whatever the function holds there (uninitialized / out-of-bounds memory).
-/

/-! ### Stop-and-wait client, `clientStopWait` (udp.cpp lines 33-61) -/

/-- Line 40, `message[0] = msgNum & 1`: the 1-bit sequence number assigned to
message index `msgNum`. -/
def bitFor (msgNum : Nat) : Nat := msgNum &&& 1

/-- Lines 42-57, the per-message do-while loop of `clientStopWait`, driven by
the list of acknowledgment values the socket delivers (one per iteration; the
poll/timeout resends inside the wait loop are environment-driven and not part
of the ack-mismatch accounting modelled here).  Returns
`(retransmission counter increment, number of sends, loop terminated)`:
each iteration sends the frame once (line 43), receives one ack `a`
(line 54), adds `a ^^^ message[0]` to `retrans` (line 56) and loops while
`a != message[0]` (line 57). -/
def swRecvLoop (bit : Nat) : List Nat → Nat × Nat × Bool
  | [] => (0, 0, false)
  | a :: rest =>
      if a = bit then (a ^^^ bit, 1, true)
      else
        let r := swRecvLoop bit rest
        ((a ^^^ bit) + r.1, 1 + r.2.1, r.2.2)

/-! ### Stop-and-wait server, `serverReliable` (udp.cpp lines 73-82) -/

/-- Line 80, the literal loop guard `while (message[0] != msgToAck & 1)`.
In C, `!=` binds tighter than `&`, so the condition is
`(message[0] != msgToAck) & 1`, an `int` tested against zero. -/
def serverGuard (received msgToAck : Nat) : Bool :=
  decide ((((if received ≠ msgToAck then 1 else 0) : Nat) &&& 1) ≠ 0)

/-- The guard the specification prescribes for the stop-and-wait receiver:
keep looping exactly while the received bit differs from the expected bit
`msgToAck mod 2`. -/
def serverGuardSpec (received msgToAck : Nat) : Bool :=
  decide (received ≠ msgToAck % 2)

/-! ### `ackAdvance` (udp.cpp lines 167-181) -/

/-- `ackAdvance(sock, lastSeqRec, windowSize)`.  `datagram` is the result of
the poll: `none` when `pollRecvFrom() <= 0`, `some recAckNum` when a datagram
holding `recAckNum` is consumed by `recvFrom`.  The two `%` of the source are
C truncated remainders, hence `Int.tmod`. -/
def ackAdvance (datagram : Option Int) (lastSeqRec windowSize : Int) : Int :=
  let seqRange := windowSize * 2 + 1
  match datagram with
  | none => 0
  | some recAckNum =>
      if (recAckNum - (lastSeqRec + 1) + seqRange).tmod seqRange < windowSize then
        (recAckNum - lastSeqRec + seqRange).tmod seqRange
      else 0

/-! ### Arithmetic helpers -/

theorem tmod_eq_emod_of_nonneg {a b : Int} (ha : 0 ≤ a) (hb : 0 ≤ b) :
    a.tmod b = a % b := Int.tmod_eq_emod ha hb

/-- Bounds for `ackAdvance`: with the oldest outstanding sequence number in
the ring and a nonnegative received value, the result is in `[0, windowSize]`,
and an accepted acknowledgment advances by `(recAckNum - lastSeqRec)` modulo
the ring (Euclidean). -/
theorem ackAdvance_cases (w lastSeqRec v : Int) (hw : 1 ≤ w)
    (h0 : 0 ≤ lastSeqRec) (h1 : lastSeqRec < 2 * w + 1) (hv : 0 ≤ v) :
    (0 ≤ ackAdvance (some v) lastSeqRec w ∧ ackAdvance (some v) lastSeqRec w ≤ w) ∧
    ((v - (lastSeqRec + 1)) % (2 * w + 1) < w →
      ackAdvance (some v) lastSeqRec w = (v - lastSeqRec) % (2 * w + 1)) ∧
    (w ≤ (v - (lastSeqRec + 1)) % (2 * w + 1) →
      ackAdvance (some v) lastSeqRec w = 0) := by
  have hRw : (2 : Int) * w + 1 = w * 2 + 1 := by ring
  rw [hRw]
  have hR : (0 : Int) < w * 2 + 1 := by omega
  have hnum1 : 0 ≤ v - (lastSeqRec + 1) + (w * 2 + 1) := by omega
  have hnum2 : 0 ≤ v - lastSeqRec + (w * 2 + 1) := by omega
  have htest : (v - (lastSeqRec + 1) + (w * 2 + 1)).tmod (w * 2 + 1)
      = (v - (lastSeqRec + 1)) % (w * 2 + 1) := by
    rw [tmod_eq_emod_of_nonneg hnum1 (by omega)]
    have he : v - (lastSeqRec + 1) + (w * 2 + 1)
        = v - (lastSeqRec + 1) + (w * 2 + 1) * 1 := by ring
    rw [he, Int.add_mul_emod_self_left]
  have hret : (v - lastSeqRec + (w * 2 + 1)).tmod (w * 2 + 1)
      = (v - lastSeqRec) % (w * 2 + 1) := by
    rw [tmod_eq_emod_of_nonneg hnum2 (by omega)]
    have he : v - lastSeqRec + (w * 2 + 1)
        = v - lastSeqRec + (w * 2 + 1) * 1 := by ring
    rw [he, Int.add_mul_emod_self_left]
  have hrel : (v - lastSeqRec) % (w * 2 + 1)
      = ((v - (lastSeqRec + 1)) % (w * 2 + 1) + 1) % (w * 2 + 1) := by
    have h11 : (1 : Int) % (w * 2 + 1) = 1 :=
      Int.emod_eq_of_lt (by omega) (by omega)
    conv_lhs => rw [show v - lastSeqRec = (v - (lastSeqRec + 1)) + 1 by ring]
    rw [Int.add_emod, h11]
  have htb0 : 0 ≤ (v - (lastSeqRec + 1)) % (w * 2 + 1) :=
    Int.emod_nonneg _ (by omega)
  have htb1 : (v - (lastSeqRec + 1)) % (w * 2 + 1) < w * 2 + 1 :=
    Int.emod_lt_of_pos _ hR
  unfold ackAdvance
  simp only [htest, hret]
  constructor
  · by_cases hacc : (v - (lastSeqRec + 1)) % (w * 2 + 1) < w
    · simp only [if_pos hacc]
      rw [hrel, Int.emod_eq_of_lt (by omega) (by omega)]
      omega
    · simp only [if_neg hacc]
      omega
  · constructor
    · intro hacc
      simp only [if_pos hacc]
    · intro hrej
      rw [if_neg (by omega)]

/-- Behaviour of the `while (seqNum != message[0])` loop for one expected bit:
it stops exactly at the first matching ack, each preceding (mismatched) ack
contributes exactly one retransmission count, and each consumed ack
corresponds to one send of the frame. -/
theorem swRecvLoop_spec (bit : Nat) (hbit : bit ≤ 1) (acks : List Nat)
    (h : ∀ a ∈ acks, a ≤ 1) :
    ((swRecvLoop bit acks).2.2 = true ↔ bit ∈ acks) ∧
    (swRecvLoop bit acks).1 = (acks.takeWhile (fun a => a != bit)).length ∧
    (swRecvLoop bit acks).2.1 = (acks.takeWhile (fun a => a != bit)).length
      + (if (swRecvLoop bit acks).2.2 = true then 1 else 0) := by
  induction acks with
  | nil => simp [swRecvLoop]
  | cons a rest ih =>
      have ha : a ≤ 1 := h a (List.mem_cons_self a rest)
      have hrest : ∀ x ∈ rest, x ≤ 1 := fun x hx => h x (List.mem_cons_of_mem a hx)
      obtain ⟨ih1, ih2, ih3⟩ := ih hrest
      by_cases hab : a = bit
      · subst hab
        have hx : a ^^^ a = 0 := Nat.xor_self a
        simp [swRecvLoop, List.takeWhile, hx]
      · have hx : a ^^^ bit = 1 := by
          interval_cases a <;> interval_cases bit <;> simp_all
        have hbne : (a != bit) = true := by simpa using hab
        have hloop : swRecvLoop bit (a :: rest)
            = ((a ^^^ bit) + (swRecvLoop bit rest).1,
               1 + (swRecvLoop bit rest).2.1, (swRecvLoop bit rest).2.2) := by
          simp [swRecvLoop, hab]
        have htw : (a :: rest).takeWhile (fun x => x != bit)
            = a :: rest.takeWhile (fun x => x != bit) := by
          simp [List.takeWhile_cons, hbne]
        rw [hloop, htw]
        refine ⟨?_, ?_, ?_⟩
        · show (swRecvLoop bit rest).2.2 = true ↔ bit ∈ a :: rest
          constructor
          · intro ht
            exact List.mem_cons_of_mem a (ih1.mp ht)
          · intro hmem
            rcases List.mem_cons.mp hmem with he | hm
            · exact absurd he.symm hab
            · exact ih1.mpr hm
        · show (a ^^^ bit) + (swRecvLoop bit rest).1
            = (a :: rest.takeWhile (fun x => x != bit)).length
          simp only [hx, ih2, List.length_cons]
          omega
        · show 1 + (swRecvLoop bit rest).2.1
            = (a :: rest.takeWhile (fun x => x != bit)).length
              + (if (swRecvLoop bit rest).2.2 = true then 1 else 0)
          simp only [ih3, List.length_cons]
          omega

/--
C8 (confirmed): for message index `n`, `clientStopWait` sends the frame with
sequence bit `n mod 2` (line 40 computes `msgNum & 1`); the per-message loop
terminates exactly when a received acknowledgment equals that bit; every
mismatched acknowledgment (of the 1-bit values the protocol uses) adds
exactly one to the retransmission counter and causes one more send of the
frame.
-/
theorem c8_stop_wait_round (n : Nat) (acks : List Nat) (h : ∀ a ∈ acks, a ≤ 1) :
    bitFor n = n % 2 ∧
    ((swRecvLoop (n % 2) acks).2.2 = true ↔ n % 2 ∈ acks) ∧
    (swRecvLoop (n % 2) acks).1 = (acks.takeWhile (fun a => a != n % 2)).length ∧
    (swRecvLoop (n % 2) acks).2.1
      = (acks.takeWhile (fun a => a != n % 2)).length
        + (if (swRecvLoop (n % 2) acks).2.2 = true then 1 else 0) := by
  refine ⟨Nat.and_one_is_mod n, ?_⟩
  exact swRecvLoop_spec (n % 2) (by omega) acks h

/-- Witness for C8: message index 0 (bit 0), ack sequence `[1, 0]` — one
stale ack then the matching one: one extra retransmission, two sends,
loop terminated. -/
theorem c8_stop_wait_round_witness :
    bitFor 0 = 0 % 2 ∧
    ((swRecvLoop (0 % 2) [1, 0]).2.2 = true ↔ 0 % 2 ∈ [1, 0]) ∧
    (swRecvLoop (0 % 2) [1, 0]).1
      = (([1, 0].takeWhile (fun a => a != 0 % 2))).length ∧
    (swRecvLoop (0 % 2) [1, 0]).2.1
      = (([1, 0].takeWhile (fun a => a != 0 % 2))).length
        + (if (swRecvLoop (0 % 2) [1, 0]).2.2 = true then 1 else 0) :=
  c8_stop_wait_round 0 [1, 0] (by decide)

/--
C1 (code bug): the stop-and-wait receiver's loop guard, literally
`(message[0] != msgToAck) & 1` because `!=` binds tighter than `&`, differs
from the specified guard `message[0] != (msgToAck & 1)`.  At expected index
`msgToAck = 2` with the in-order frame bit `0` arriving, the code's guard is
still true (it keeps re-receiving forever, since frame bits never exceed 1),
while the specified guard is false (the index should advance).
-/
theorem c1_guard_precedence_bug :
    serverGuard 0 2 = true ∧ serverGuardSpec 0 2 = false := by decide

/--
C2 (corrected): `ackAdvance` behaves as claimed — 0 with no datagram, 0 for
an acknowledgment outside the acceptance window, the Euclidean modular
distance `(recAckNum - lastSeqRec) mod (2*windowSize+1)` when accepted,
always within `[0, windowSize]`, and 0 for a duplicate equal to
`lastSeqRec` — for every NONNEGATIVE received value (the amendment; the
original claim over every possible `int` fails, see `c2_counterexample`).
-/
theorem c2_ack_advance (w lastSeqRec v : Int) (hw : 1 ≤ w)
    (h0 : 0 ≤ lastSeqRec) (h1 : lastSeqRec < 2 * w + 1) (hv : 0 ≤ v) :
    ackAdvance none lastSeqRec w = 0 ∧
    (0 ≤ ackAdvance (some v) lastSeqRec w ∧ ackAdvance (some v) lastSeqRec w ≤ w) ∧
    ((v - (lastSeqRec + 1)) % (2 * w + 1) < w →
      ackAdvance (some v) lastSeqRec w = (v - lastSeqRec) % (2 * w + 1)) ∧
    (w ≤ (v - (lastSeqRec + 1)) % (2 * w + 1) →
      ackAdvance (some v) lastSeqRec w = 0) ∧
    ackAdvance (some lastSeqRec) lastSeqRec w = 0 := by
  obtain ⟨hb, hacc, hrej⟩ := ackAdvance_cases w lastSeqRec v hw h0 h1 hv
  obtain ⟨_, _, hrej'⟩ := ackAdvance_cases w lastSeqRec lastSeqRec hw h0 h1 h0
  refine ⟨rfl, hb, hacc, hrej, hrej' ?_⟩
  have hm1 : (lastSeqRec - (lastSeqRec + 1)) % (2 * w + 1) = 2 * w := by
    have he : lastSeqRec - (lastSeqRec + 1) = 2 * w + (2 * w + 1) * (-1) := by ring
    rw [he, Int.add_mul_emod_self_left]
    exact Int.emod_eq_of_lt (by omega) (by omega)
  omega

/-- Witness for C2 at `windowSize = 1`, `lastSeqRec = 0`, received value 1. -/
theorem c2_ack_advance_witness :
    ackAdvance none 0 1 = 0 ∧
    (0 ≤ ackAdvance (some 1) 0 1 ∧ ackAdvance (some 1) 0 1 ≤ 1) ∧
    (((1 : Int) - (0 + 1)) % (2 * 1 + 1) < 1 →
      ackAdvance (some 1) 0 1 = ((1 : Int) - 0) % (2 * 1 + 1)) ∧
    ((1 : Int) ≤ ((1 : Int) - (0 + 1)) % (2 * 1 + 1) →
      ackAdvance (some 1) 0 1 = 0) ∧
    ackAdvance (some 0) 0 1 = 0 :=
  c2_ack_advance 1 0 1 (by decide) (by decide) (by decide) (by decide)

/-- Counterexample for C2 as stated: `lastSeqRec = 0` is in the ring for
`windowSize = 1`, yet the received value `-4` (a possible C `int` off the
wire) passes the acceptance test under C truncated `%` and makes
`ackAdvance` return `-1`, outside `[0, windowSize]`. -/
theorem c2_counterexample :
    ((0 : Int) ≤ 0 ∧ (0 : Int) < 2 * 1 + 1) ∧
    ackAdvance (some (-4)) 0 1 = -1 ∧
    ¬ (0 ≤ ackAdvance (some (-4)) 0 1) := by decide

/-! ### Sliding-window client, `clientSlidingWindow` (udp.cpp lines 108-152) -/

/-- Session parameters of `clientSlidingWindow`: `windowSize`, `max`
(`maxMsgs` here), and the caller's second message word `payload`
(`sizeof(message)` on a pointer parameter is 8 bytes = 2 ints, so the copy
loop of lines 143-145 stores `message[0]` and `message[1]`). -/
structure CWParams where
  windowSize : Int
  maxMsgs : Int
  payload : Int

/-- State of `clientSlidingWindow`: outer loop counter `msgNum`, the two
cursors, the retransmission counter, and the `buffer` array of
`(windowSize + 1) * max` ints (line 114), modelled as a total function on
word indices — indices outside the allocation read whatever the surrounding
memory holds. -/
structure CWState where
  msgNum : Int
  lastAckRec : Int
  lastFrameSent : Int
  retrans : Int
  buffer : Int → Int

def writeMem (m : Int → Int) (i v : Int) : Int → Int :=
  fun j => if j = i then v else m j

def cwInit (g : Int → Int) : CWState :=
  { msgNum := 0, lastAckRec := 0, lastFrameSent := 0, retrans := 0, buffer := g }

/-- Line 121: the window-full test
`lastAckRec == (lastFrameSent + 1) % (windowSize + 1)`. -/
def cwFull (p : CWParams) (s : CWState) : Prop :=
  s.lastAckRec = (s.lastFrameSent + 1).tmod (p.windowSize + 1)

instance (p : CWParams) (s : CWState) : Decidable (cwFull p s) :=
  inferInstanceAs
    (Decidable (s.lastAckRec = (s.lastFrameSent + 1).tmod (p.windowSize + 1)))

/-- Line 125: number of outstanding frames,
`(lastFrameSent - lastAckRec + windowSize + 1) % (windowSize + 1)`. -/
def outstandingCW (p : CWParams) (s : CWState) : Int :=
  (s.lastFrameSent - s.lastAckRec + p.windowSize + 1).tmod (p.windowSize + 1)

/-- One socket/timer interaction: did the timer test `lap() > 1500` fire,
and what did the poll deliver. -/
structure CWEvent where
  timeoutFired : Bool
  datagram : Option Int

/-- Lines 122-136: one iteration of the window-full wait loop.  On timeout
the burst of lines 124-130 increments `retrans` once per outstanding frame;
then line 135 reads `buffer[(lastAckRec + 1) * max]` — with NO
`% (windowSize + 1)` on the slot index, unlike line 147 — and calls
`ackAdvance` on it. -/
def cwWaitIter (p : CWParams) (s : CWState) (e : CWEvent) : CWState :=
  let s1 := if e.timeoutFired
    then { s with retrans := s.retrans + outstandingCW p s }
    else s
  let lastSeq := s1.buffer ((s1.lastAckRec + 1) * p.maxMsgs)
  let lar :=
    (s1.lastAckRec + ackAdvance e.datagram lastSeq p.windowSize).tmod
      (p.windowSize + 1)
  { s1 with lastAckRec := lar }

/-- Lines 139-148: assign sequence number `msgNum % seqRange`, send, advance
`lastFrameSent`, copy the two message words into the slot, then try
`ackAdvance` on `buffer[((lastAckRec + 1) % (windowSize + 1)) * max]`
(line 147, this time with the modulus). -/
def cwSendStep (p : CWParams) (s : CWState) (d : Option Int) : CWState :=
  let seq := s.msgNum.tmod (p.windowSize * 2 + 1)
  let lfs := (s.lastFrameSent + 1).tmod (p.windowSize + 1)
  let buf := writeMem (writeMem s.buffer (lfs * p.maxMsgs) seq)
      (lfs * p.maxMsgs + 1) p.payload
  let lastSeq := buf (((s.lastAckRec + 1).tmod (p.windowSize + 1)) * p.maxMsgs)
  { msgNum := s.msgNum + 1,
    lastAckRec :=
      (s.lastAckRec + ackAdvance d lastSeq p.windowSize).tmod (p.windowSize + 1),
    lastFrameSent := lfs,
    retrans := s.retrans,
    buffer := buf }

/-- One step of the session: while `msgNum < max`, either a wait-loop
iteration (window full) or the send block (window not full). -/
def cwStep (p : CWParams) (s : CWState) (e : CWEvent) : CWState :=
  if s.msgNum < p.maxMsgs then
    if cwFull p s then cwWaitIter p s e else cwSendStep p s e.datagram
  else s

def cwRun (p : CWParams) (g : Int → Int) (evs : List CWEvent) : CWState :=
  evs.foldl (cwStep p) (cwInit g)

/-- The index of the wait-loop read of line 135, `(lastAckRec + 1) * max`. -/
def waitReadIndex (p : CWParams) (s : CWState) : Int :=
  (s.lastAckRec + 1) * p.maxMsgs

/-- Number of int elements of `buffer` (line 114). -/
def cwBufLen (p : CWParams) : Int := (p.windowSize + 1) * p.maxMsgs

/-- A datagram carried by an event holds a protocol acknowledgment: a value
in the sequence ring `[0, windowSize * 2 + 1)`. -/
def evOK (p : CWParams) (e : CWEvent) : Bool :=
  match e.datagram with
  | none => true
  | some v => decide (0 ≤ v ∧ v < p.windowSize * 2 + 1)

def cwP : CWParams := { windowSize := 1, maxMsgs := 3, payload := 0 }

def cwG0 : Int → Int := fun _ => 0

/-- Uninitialized stack memory one word past the end of `buffer` holding the
(arbitrary) value 5: `buffer` has `(1+1)*3 = 6` words, index 6 is one past. -/
def cwGbad : Int → Int := fun i => if i = 6 then 5 else 0

def evNone : CWEvent := { timeoutFired := false, datagram := none }

def evAck1 : CWEvent := { timeoutFired := false, datagram := some 1 }

def evAck0 : CWEvent := { timeoutFired := false, datagram := some 0 }

/--
C9 (code bug): with `windowSize = 1`, `max = 3`, after sending frame 0,
receiving its acknowledgment, and sending frame 1 (events
`[evNone, evAck1, evNone]`), the session reaches a reachable state with
`lastAckRec = windowSize = 1` and a full window while `msgNum < max`; the
next wait-loop iteration therefore reads `buffer[(lastAckRec + 1) * max]`
= `buffer[(windowSize + 1) * max]`, which is NOT strictly below the buffer
length `(windowSize + 1) * max` — an out-of-bounds read (line 135 is
missing the `% (windowSize + 1)` that line 147 has).
-/
theorem c9_wait_read_out_of_bounds :
    cwFull cwP (cwRun cwP cwG0 [evNone, evAck1, evNone]) ∧
    (cwRun cwP cwG0 [evNone, evAck1, evNone]).msgNum < cwP.maxMsgs ∧
    (cwRun cwP cwG0 [evNone, evAck1, evNone]).lastAckRec = cwP.windowSize ∧
    ¬ (waitReadIndex cwP (cwRun cwP cwG0 [evNone, evAck1, evNone])
        < cwBufLen cwP) := by decide

/-! ### The Go-Back-N retransmission burst (udp.cpp lines 124-130) -/

/-- Lines 127-128 pass `(char*)buffer[slot * max]` to `sendTo`: the int
VALUE stored at the slot's first word, reinterpreted as the source address
of the bytes to resend.  `mem` is word-addressed process memory and `base`
the word address of `buffer`, so the slot's first word sits at
`base + slot * max` and the value passed as the source pointer is this. -/
def goBackNSendSrc (mem : Int → Int) (base slot maxMsgs : Int) : Int :=
  mem (base + slot * maxMsgs)

/-- The two words (`sizeof(message)` = 8 bytes) `sendTo` actually reads for
the retransmission: the words at the address the code computed. -/
def goBackNSentWords (mem : Int → Int) (base slot maxMsgs : Int) : List Int :=
  [mem (goBackNSendSrc mem base slot maxMsgs),
   mem (goBackNSendSrc mem base slot maxMsgs + 1)]

/-- The frame stored in the slot — what a Go-Back-N retransmission is
supposed to resend (the intended `&buffer[slot * max]`). -/
def storedFrameWords (mem : Int → Int) (base slot maxMsgs : Int) : List Int :=
  [mem (base + slot * maxMsgs), mem (base + slot * maxMsgs + 1)]

/-- Memory with `buffer` at base address 100, `max = 3`: slot 1 holds the
outstanding frame with sequence number 1 and payload word 42. -/
def c3mem : Int → Int := fun i => if i = 103 then 1 else if i = 104 then 42 else 0

/--
C3 (code bug): on timeout the retransmission loop does count and walk the
outstanding slots `lastAckRec+1 .. lastFrameSent` in order, but what it
passes to `sendTo` is the stored integer `buffer[slot * max]` cast to a
pointer (missing `&`), so the bytes resent are read from that bogus
address, not from the buffered frame.  Concretely: slot 1 stores frame
`[1, 42]`, the code sends the two words at address 1, namely `[0, 0]`.
-/
theorem c3_retransmit_reads_wrong_memory :
    storedFrameWords c3mem 100 1 3 = [1, 42] ∧
    goBackNSendSrc c3mem 100 1 3 = 1 ∧
    goBackNSentWords c3mem 100 1 3 = [0, 0] ∧
    goBackNSentWords c3mem 100 1 3 ≠ storedFrameWords c3mem 100 1 3 := by decide

/-- Counterexample for C4 as stated: with `windowSize = 1`, `max = 3`,
in-ring acknowledgments only, but uninitialized memory past the buffer
holding 5 (`cwGbad`), the out-of-bounds wait-loop read of line 135 feeds
garbage into `ackAdvance`, which returns `-2`; `lastAckRec` becomes `-1`,
the window-full test of line 121 then fails although
`(lastFrameSent - lastAckRec + windowSize + 1) % (windowSize + 1)`
= `windowSize` frames are outstanding, and the next step sends a new frame
(`msgNum` advances) with a full window. -/
theorem c4_counterexample :
    (∀ e ∈ [evNone, evAck1, evNone, evAck0], evOK cwP e = true) ∧
    (cwRun cwP cwGbad [evNone, evAck1, evNone, evAck0]).lastAckRec = -1 ∧
    ¬ cwFull cwP (cwRun cwP cwGbad [evNone, evAck1, evNone, evAck0]) ∧
    outstandingCW cwP (cwRun cwP cwGbad [evNone, evAck1, evNone, evAck0])
      = cwP.windowSize ∧
    (cwStep cwP (cwRun cwP cwGbad [evNone, evAck1, evNone, evAck0]) evNone).msgNum
      = (cwRun cwP cwGbad [evNone, evAck1, evNone, evAck0]).msgNum + 1 := by
  decide

theorem mul_ne_one_of_two_le {d m : Int} (hm : 2 ≤ m) : d * m ≠ 1 := by
  intro h
  rcases le_or_lt d 0 with hd | hd
  · have h2 : d * m ≤ 0 * m := mul_le_mul_of_nonneg_right hd (by omega)
    rw [zero_mul] at h2
    linarith
  · have hd1 : (1 : Int) ≤ d := hd
    have h2 : 1 * m ≤ d * m := mul_le_mul_of_nonneg_right hd1 (by omega)
    rw [one_mul] at h2
    linarith

theorem ackAdvance_bounds (w lastSeq : Int) (hw : 1 ≤ w) (h0 : 0 ≤ lastSeq)
    (h1 : lastSeq < 2 * w + 1) (d : Option Int) (hd : ∀ v, d = some v → 0 ≤ v) :
    0 ≤ ackAdvance d lastSeq w ∧ ackAdvance d lastSeq w ≤ w := by
  match d with
  | none => exact ⟨le_refl 0, show (0 : Int) ≤ w by omega⟩
  | some v => exact (ackAdvance_cases w lastSeq v hw h0 h1 (hd v rfl)).1

/-- Invariant of the sliding-window sender: cursors stay in the ring
`[0, windowSize + 1)` and every word of memory at a slot boundary
(`index = k * max`, the words `ackAdvance` can be fed from, line 135/147)
holds a value in the sequence ring. -/
def cwInv (p : CWParams) (s : CWState) : Prop :=
  0 ≤ s.msgNum ∧
  0 ≤ s.lastAckRec ∧ s.lastAckRec < p.windowSize + 1 ∧
  0 ≤ s.lastFrameSent ∧ s.lastFrameSent < p.windowSize + 1 ∧
  ∀ k : Int, 0 ≤ s.buffer (k * p.maxMsgs) ∧
    s.buffer (k * p.maxMsgs) < 2 * p.windowSize + 1

theorem cwWaitIter_fields (p : CWParams) (s : CWState) (e : CWEvent) :
    (cwWaitIter p s e).msgNum = s.msgNum ∧
    (cwWaitIter p s e).lastFrameSent = s.lastFrameSent ∧
    (cwWaitIter p s e).buffer = s.buffer ∧
    (cwWaitIter p s e).lastAckRec
      = (s.lastAckRec + ackAdvance e.datagram
          (s.buffer ((s.lastAckRec + 1) * p.maxMsgs)) p.windowSize).tmod
          (p.windowSize + 1) := by
  unfold cwWaitIter
  cases h : e.timeoutFired <;> simp [h]

theorem cwStep_preserves_inv (p : CWParams) (hw : 1 ≤ p.windowSize)
    (hm : 2 ≤ p.maxMsgs) (s : CWState) (e : CWEvent)
    (hOK : evOK p e = true) (hs : cwInv p s) : cwInv p (cwStep p s e) := by
  obtain ⟨hmn, hl0, hl1, hf0, hf1, hbuf⟩ := hs
  have hring : (0 : Int) < p.windowSize + 1 := by omega
  have hdOK : ∀ v, e.datagram = some v → 0 ≤ v := by
    intro v hv
    unfold evOK at hOK
    rw [hv] at hOK
    simp only [decide_eq_true_eq] at hOK
    exact hOK.1
  unfold cwStep
  by_cases hrun : s.msgNum < p.maxMsgs
  · rw [if_pos hrun]
    by_cases hfull : cwFull p s
    · rw [if_pos hfull]
      obtain ⟨he1, he2, he3, he4⟩ := cwWaitIter_fields p s e
      have hseq := hbuf (s.lastAckRec + 1)
      have hadv := ackAdvance_bounds p.windowSize
        (s.buffer ((s.lastAckRec + 1) * p.maxMsgs)) hw hseq.1 hseq.2
        e.datagram hdOK
      refine ⟨by rw [he1]; exact hmn, ?_, ?_, by rw [he2]; exact hf0,
        by rw [he2]; exact hf1, by rw [he3]; exact hbuf⟩
      · rw [he4]
        exact Int.tmod_nonneg _ (by omega)
      · rw [he4]
        exact Int.tmod_lt_of_pos _ hring
    · rw [if_neg hfull]
      unfold cwSendStep
      simp only
      have hlfs0 : 0 ≤ (s.lastFrameSent + 1).tmod (p.windowSize + 1) :=
        Int.tmod_nonneg _ (by omega)
      have hlfs1 : (s.lastFrameSent + 1).tmod (p.windowSize + 1)
          < p.windowSize + 1 := Int.tmod_lt_of_pos _ hring
      have hbuf' : ∀ k : Int,
          0 ≤ writeMem (writeMem s.buffer
              (((s.lastFrameSent + 1).tmod (p.windowSize + 1)) * p.maxMsgs)
              (s.msgNum.tmod (p.windowSize * 2 + 1)))
              (((s.lastFrameSent + 1).tmod (p.windowSize + 1)) * p.maxMsgs + 1)
              p.payload (k * p.maxMsgs) ∧
          writeMem (writeMem s.buffer
              (((s.lastFrameSent + 1).tmod (p.windowSize + 1)) * p.maxMsgs)
              (s.msgNum.tmod (p.windowSize * 2 + 1)))
              (((s.lastFrameSent + 1).tmod (p.windowSize + 1)) * p.maxMsgs + 1)
              p.payload (k * p.maxMsgs) < 2 * p.windowSize + 1 := by
        intro k
        unfold writeMem
        have hne1 : ¬ (k * p.maxMsgs
            = ((s.lastFrameSent + 1).tmod (p.windowSize + 1)) * p.maxMsgs + 1) := by
          intro hcontra
          have : (k - (s.lastFrameSent + 1).tmod (p.windowSize + 1)) * p.maxMsgs
              = 1 := by ring_nf; ring_nf at hcontra; linarith
          exact mul_ne_one_of_two_le hm this
        rw [if_neg hne1]
        by_cases hk : k * p.maxMsgs
            = ((s.lastFrameSent + 1).tmod (p.windowSize + 1)) * p.maxMsgs
        · rw [if_pos hk]
          constructor
          · exact Int.tmod_nonneg _ hmn
          · have := Int.tmod_lt_of_pos s.msgNum
              (show (0 : Int) < p.windowSize * 2 + 1 by omega)
            omega
        · rw [if_neg hk]
          exact hbuf k
      have hseq := hbuf' ((s.lastAckRec + 1).tmod (p.windowSize + 1))
      have hadv := ackAdvance_bounds p.windowSize _ hw hseq.1 hseq.2
        e.datagram hdOK
      refine ⟨show 0 ≤ s.msgNum + 1 by omega, ?_, ?_, hlfs0, hlfs1, hbuf'⟩
      · exact Int.tmod_nonneg _ (by omega)
      · exact Int.tmod_lt_of_pos _ hring
  · rw [if_neg hrun]
    exact ⟨hmn, hl0, hl1, hf0, hf1, hbuf⟩

theorem cwRun_inv_aux (p : CWParams) (hw : 1 ≤ p.windowSize)
    (hm : 2 ≤ p.maxMsgs) :
    ∀ evs : List CWEvent, ∀ s : CWState, cwInv p s →
      (∀ e ∈ evs, evOK p e = true) → cwInv p (evs.foldl (cwStep p) s) := by
  intro evs
  induction evs with
  | nil => intro s hs _; exact hs
  | cons e rest ih =>
      intro s hs hevs
      have hOK : evOK p e = true := hevs e (List.mem_cons_self e rest)
      have hrest : ∀ x ∈ rest, evOK p x = true :=
        fun x hx => hevs x (List.mem_cons_of_mem e hx)
      exact ih (cwStep p s e) (cwStep_preserves_inv p hw hm s e hOK hs) hrest

theorem cwRun_inv (p : CWParams) (hw : 1 ≤ p.windowSize) (hm : 2 ≤ p.maxMsgs)
    (g : Int → Int) (hg : ∀ i, 0 ≤ g i ∧ g i < 2 * p.windowSize + 1)
    (evs : List CWEvent) (hevs : ∀ e ∈ evs, evOK p e = true) :
    cwInv p (cwRun p g evs) := by
  apply cwRun_inv_aux p hw hm evs (cwInit g) _ hevs
  exact ⟨le_refl 0, le_refl 0, show (0 : Int) < p.windowSize + 1 by omega,
    le_refl 0, show (0 : Int) < p.windowSize + 1 by omega,
    fun k => hg (k * p.maxMsgs)⟩

theorem outstanding_val (w lar lfs : Int) (hw : 1 ≤ w) (h0 : 0 ≤ lar)
    (h1 : lar < w + 1) (h2 : 0 ≤ lfs) (h3 : lfs < w + 1) :
    (lfs - lar + w + 1).tmod (w + 1)
      = if lar ≤ lfs then lfs - lar else lfs - lar + (w + 1) := by
  rw [tmod_eq_emod_of_nonneg (by omega) (by omega)]
  by_cases h : lar ≤ lfs
  · rw [if_pos h]
    have he : lfs - lar + w + 1 = lfs - lar + (w + 1) * 1 := by ring
    rw [he, Int.add_mul_emod_self_left]
    exact Int.emod_eq_of_lt (by omega) (by omega)
  · rw [if_neg h]
    have he : lfs - lar + w + 1 = lfs - lar + (w + 1) := by ring
    rw [he]
    exact Int.emod_eq_of_lt (by omega) (by omega)

theorem ring_succ_val (w lfs : Int) (hw : 1 ≤ w) (h2 : 0 ≤ lfs)
    (h3 : lfs < w + 1) :
    (lfs + 1).tmod (w + 1) = if lfs = w then 0 else lfs + 1 := by
  by_cases h : lfs = w
  · rw [if_pos h, h]
    exact Int.tmod_self
  · rw [if_neg h]
    exact Int.tmod_eq_of_lt (by omega) (by omega)

/--
C4 (corrected): provided the uninitialized memory the buffer occupies (and
the word one past it, which line 135 can read out of bounds) initially holds
only values in the sequence ring — the amendment forced by
`c4_counterexample` — the number of outstanding frames
`(lastFrameSent - lastAckRec + windowSize + 1) % (windowSize + 1)` is at
most `windowSize` at every reachable state of a `clientSlidingWindow`
session, it equals `windowSize` exactly when the window-full test
`lastAckRec == (lastFrameSent + 1) % (windowSize + 1)` holds, and hence a
new frame is sent (the non-full branch is taken) only when the count is
strictly below `windowSize`.
-/
theorem c4_window_bound (p : CWParams) (hw : 1 ≤ p.windowSize)
    (hm : 2 ≤ p.maxMsgs) (g : Int → Int)
    (hg : ∀ i, 0 ≤ g i ∧ g i < 2 * p.windowSize + 1)
    (evs : List CWEvent) (hevs : ∀ e ∈ evs, evOK p e = true) :
    outstandingCW p (cwRun p g evs) ≤ p.windowSize ∧
    (outstandingCW p (cwRun p g evs) = p.windowSize ↔ cwFull p (cwRun p g evs)) ∧
    (¬ cwFull p (cwRun p g evs) → outstandingCW p (cwRun p g evs) < p.windowSize) := by
  obtain ⟨hmn, hl0, hl1, hf0, hf1, hbuf⟩ := cwRun_inv p hw hm g hg evs hevs
  unfold outstandingCW cwFull
  rw [outstanding_val p.windowSize (cwRun p g evs).lastAckRec
      (cwRun p g evs).lastFrameSent hw hl0 hl1 hf0 hf1]
  rw [ring_succ_val p.windowSize (cwRun p g evs).lastFrameSent hw hf0 hf1]
  split_ifs <;> omega

/-- Witness for C4 (amended) on a concrete session: `windowSize = 1`,
`max = 3`, zero-initialized memory, events: send frame 0, then its
acknowledgment arrives. -/
theorem c4_window_bound_witness :
    outstandingCW cwP (cwRun cwP cwG0 [evNone, evAck1]) ≤ cwP.windowSize ∧
    (outstandingCW cwP (cwRun cwP cwG0 [evNone, evAck1]) = cwP.windowSize ↔
      cwFull cwP (cwRun cwP cwG0 [evNone, evAck1])) ∧
    (¬ cwFull cwP (cwRun cwP cwG0 [evNone, evAck1]) →
      outstandingCW cwP (cwRun cwP cwG0 [evNone, evAck1]) < cwP.windowSize) :=
  c4_window_bound cwP (by decide) (by decide) cwG0
    (fun i => ⟨le_refl 0, show (0 : Int) < 2 * cwP.windowSize + 1 by decide⟩)
    [evNone, evAck1] (by decide)

/-! ### Sliding-window server, `serverEarlyRetrans` (udp.cpp lines 197-231) -/

def writeBool (m : Int → Bool) (i : Int) (v : Bool) : Int → Bool :=
  fun j => if j = i then v else m j

/-- Line 199: `seqRange = windowSize * 2 + 1`. -/
def srSeqRange (w : Int) : Int := w * 2 + 1

/-- State of `serverEarlyRetrans`: the cumulative pointer `lastAckSent`, the
acceptance-window trailing edge `largestAccFrame`, and the boolean occupancy
map `buffer` of `seqRange` entries indexed by sequence number, modelled as a
total function on `Int` (the received sequence word can be any int and the
code indexes the map with it unchecked). -/
structure SRState where
  lastAckSent : Int
  largestAccFrame : Int
  buffer : Int → Bool

/-- Lines 200-207: `largestAccFrame = windowSize - 1`,
`lastAckSent = seqRange - 1`, occupancy map initialized to all false. -/
def srInit (w : Int) : SRState :=
  { lastAckSent := srSeqRange w - 1, largestAccFrame := w - 1,
    buffer := fun _ => false }

/-- Lines 214-215:
`offset = windowSize - (seqRange + largestAccFrame - message[0]) % seqRange`
(C truncated remainder). -/
def srOffset (w laf seq : Int) : Int :=
  w - (srSeqRange w + laf - seq).tmod (srSeqRange w)

/-- Lines 217-219: mark the occupancy map at the received sequence number
when the offset is positive; `buffer[message[0]]` is written with NO bounds
check on the received value. -/
def srMark (w : Int) (s : SRState) (seq : Int) : SRState :=
  if 0 < srOffset w s.largestAccFrame seq
  then { s with buffer := writeBool s.buffer seq true }
  else s

/-- Line 221: the fold-loop guard `buffer[(lastAckSent + 1) % seqRange]`. -/
def srGuard (w : Int) (s : SRState) : Bool :=
  s.buffer ((s.lastAckSent + 1).tmod (srSeqRange w))

/-- Lines 222-224: one iteration of the fold loop: clear `buffer[lastAckSent]`
and advance both cursors by one around the ring. -/
def srAdvance (w : Int) (s : SRState) : SRState :=
  { lastAckSent := (s.lastAckSent + 1).tmod (srSeqRange w),
    largestAccFrame := (s.largestAccFrame + 1).tmod (srSeqRange w),
    buffer := writeBool s.buffer s.lastAckSent false }

/-- The fold loop of lines 221-225, fuel-bounded; `srSeqRange w` fuel always
suffices (`srSweep_post_guard_false` below shows the guard is false at exit,
i.e. the loop has genuinely terminated). -/
def srSweep (w : Int) : Nat → SRState → SRState
  | 0, s => s
  | n + 1, s => if srGuard w s then srSweep w n (srAdvance w s) else s

/-- Number of advances the fold loop performs (same recursion as `srSweep`). -/
def srSweepCount (w : Int) : Nat → SRState → Nat
  | 0, _ => 0
  | n + 1, s => if srGuard w s then srSweepCount w n (srAdvance w s) + 1 else 0

/-- Lines 213-228: one receive of a frame with sequence word `seq`: compute
the offset, mark the map if positive, fold the contiguous run into
`lastAckSent`, and send `(lastAckSent + 1) % seqRange`.  Returns
`(new state, offset > 0 (the do-while of line 229 repeats when false), ack
value sent)`. -/
def srStep (w : Int) (s : SRState) (seq : Int) : SRState × Bool × Int :=
  let s1 := srMark w s seq
  let s2 := srSweep w (srSeqRange w).toNat s1
  (s2, decide (0 < srOffset w s.largestAccFrame seq),
   (s2.lastAckSent + 1).tmod (srSeqRange w))

/-- States reachable in a `serverEarlyRetrans` session: the initial state,
closed under receiving a frame with any integer sequence word. -/
inductive SRReach (w : Int) : SRState → Prop
  | init : SRReach w (srInit w)
  | step (s : SRState) (seq : Int) : SRReach w s → SRReach w (srStep w s seq).1

/--
C10 (code bug): at the initial state of `serverEarlyRetrans` with
`windowSize = 1` (`largestAccFrame = 0`), the received sequence word `-3`
yields offset `1 - (3 + 0 - (-3)) % 3 = 1 > 0`, yet `-3` is not in
`[0, 2*windowSize + 1)`: line 218 then writes `buffer[-3]`, out of the
occupancy map's bounds.  (Likewise e.g. `seq = 1000` gives offset `2 > 0`.)
-/
theorem c10_positive_offset_not_in_range :
    (srInit 1).largestAccFrame = 0 ∧
    0 < srOffset 1 0 (-3) ∧
    ¬ ((0 : Int) ≤ -3 ∧ (-3 : Int) < 2 * 1 + 1) := by decide

theorem add_tmod_left_eq (a c R : Int) (ha : 0 ≤ a) (hc : 0 ≤ c)
    (hR : 0 < R) : ((a.tmod R) + c).tmod R = (a + c).tmod R := by
  have h1 : 0 ≤ a.tmod R := Int.tmod_nonneg _ ha
  have h2 : 0 ≤ a % R := Int.emod_nonneg a (by omega)
  rw [tmod_eq_emod_of_nonneg ha (by omega)]
  rw [tmod_eq_emod_of_nonneg (by omega) (by omega)]
  rw [tmod_eq_emod_of_nonneg (by omega) (by omega)]
  rw [Int.add_emod, Int.emod_emod_of_dvd a (dvd_refl R), ← Int.add_emod]

theorem add_ring_tmod (a R : Int) (ha : 0 ≤ a) (hR : 0 < R) :
    (a + R).tmod R = a.tmod R := by
  rw [tmod_eq_emod_of_nonneg (by omega) (by omega),
    tmod_eq_emod_of_nonneg ha (by omega)]
  have he : a + R = a + R * 1 := by ring
  rw [he, Int.add_mul_emod_self_left]

theorem srSweep_succ (w : Int) (n : Nat) (s : SRState) :
    srSweep w (n + 1) s
      = if srGuard w s then srSweep w n (srAdvance w s) else s := rfl

theorem srSweepCount_succ (w : Int) (n : Nat) (s : SRState) :
    srSweepCount w (n + 1) s
      = if srGuard w s then srSweepCount w n (srAdvance w s) + 1 else 0 := rfl

theorem srSweep_of_guard_false (w : Int) (n : Nat) (s : SRState)
    (hg : srGuard w s = false) : srSweep w n s = s := by
  cases n with
  | zero => rfl
  | succ n => rw [srSweep_succ, hg]; simp

theorem srAdvance_las_bounds (w : Int) (hw : 1 ≤ w) (s : SRState)
    (h0 : 0 ≤ s.lastAckSent) :
    0 ≤ (srAdvance w s).lastAckSent ∧
    (srAdvance w s).lastAckSent < srSeqRange w := by
  have hR : (0 : Int) < srSeqRange w := by unfold srSeqRange; omega
  exact ⟨Int.tmod_nonneg _ (by omega), Int.tmod_lt_of_pos _ hR⟩

/-- If some entry within the remaining fuel distance ahead of `lastAckSent`
is unoccupied, the fold loop's guard is false when the fuel is exhausted. -/
theorem srSweep_guard_false_of_gap (w : Int) (hw : 1 ≤ w) :
    ∀ (n : Nat) (s : SRState), 0 ≤ s.lastAckSent →
      s.lastAckSent < srSeqRange w →
      ∀ j : Nat, 1 ≤ j → j ≤ n →
        s.buffer ((s.lastAckSent + (j : Int)).tmod (srSeqRange w)) = false →
        srGuard w (srSweep w n s) = false := by
  intro n
  induction n with
  | zero =>
      intro s _ _ j hj1 hj2 _
      omega
  | succ n ih =>
      intro s h0 h1 j hj1 hj2 hfalse
      have hR : (0 : Int) < srSeqRange w := by unfold srSeqRange; omega
      by_cases hg : srGuard w s
      · rw [srSweep_succ, if_pos hg]
        have hj1' : j ≠ 1 := by
          intro hj
          subst hj
          unfold srGuard at hg
          simp only [Nat.cast_one] at hfalse
          rw [hfalse] at hg
          exact Bool.noConfusion hg
        obtain ⟨ha0, ha1⟩ := srAdvance_las_bounds w hw s h0
        apply ih (srAdvance w s) ha0 ha1 (j - 1) (by omega) (by omega)
        have hc : ((j - 1 : Nat) : Int) = (j : Int) - 1 := by omega
        have hidx : ((srAdvance w s).lastAckSent + ((j - 1 : Nat) : Int)).tmod
              (srSeqRange w)
            = (s.lastAckSent + (j : Int)).tmod (srSeqRange w) := by
          rw [hc]
          show (((s.lastAckSent + 1).tmod (srSeqRange w)) + ((j : Int) - 1)).tmod
              (srSeqRange w) = _
          rw [add_tmod_left_eq (s.lastAckSent + 1) ((j : Int) - 1) (srSeqRange w)
            (by omega) (by omega) hR]
          have he : s.lastAckSent + 1 + ((j : Int) - 1)
              = s.lastAckSent + (j : Int) := by ring
          rw [he]
        rw [hidx]
        show writeBool s.buffer s.lastAckSent false
            ((s.lastAckSent + (j : Int)).tmod (srSeqRange w)) = false
        unfold writeBool
        by_cases he : (s.lastAckSent + (j : Int)).tmod (srSeqRange w)
            = s.lastAckSent
        · rw [if_pos he]
        · rw [if_neg he]
          exact hfalse
      · rw [srSweep_of_guard_false w (n + 1) s (by simpa using hg)]
        simpa using hg

/-- After a fold with `seqRange` fuel the guard is false: the while loop of
lines 221-225 has genuinely terminated (it always does, within `seqRange`
iterations, because the first iteration clears the entry at `lastAckSent`,
which lies `seqRange - 1` ring positions ahead of the advanced cursor). -/
theorem srSweep_post_guard_false (w : Int) (hw : 1 ≤ w) (s : SRState)
    (h0 : 0 ≤ s.lastAckSent) (h1 : s.lastAckSent < srSeqRange w) :
    srGuard w (srSweep w (srSeqRange w).toNat s) = false := by
  have hR : (0 : Int) < srSeqRange w := by unfold srSeqRange; omega
  have hRval : srSeqRange w = w * 2 + 1 := rfl
  by_cases hg : srGuard w s
  · obtain ⟨m, hm⟩ : ∃ m : Nat, (srSeqRange w).toNat = m + 1 := by
      refine ⟨(srSeqRange w).toNat - 1, ?_⟩
      rw [hRval]
      omega
    rw [hm, srSweep_succ, if_pos hg]
    obtain ⟨ha0, ha1⟩ := srAdvance_las_bounds w hw s h0
    apply srSweep_guard_false_of_gap w hw m (srAdvance w s) ha0 ha1
      ((w * 2).toNat) (by omega) (by rw [hRval] at hm; omega)
    have hc : (((w * 2).toNat : Nat) : Int) = w * 2 := by omega
    have hidx : ((srAdvance w s).lastAckSent + (((w * 2).toNat : Nat) : Int)).tmod
          (srSeqRange w) = s.lastAckSent := by
      rw [hc]
      show (((s.lastAckSent + 1).tmod (srSeqRange w)) + w * 2).tmod
          (srSeqRange w) = s.lastAckSent
      rw [add_tmod_left_eq (s.lastAckSent + 1) (w * 2) (srSeqRange w)
        (by omega) (by omega) hR]
      have he : s.lastAckSent + 1 + w * 2 = s.lastAckSent + srSeqRange w := by
        rw [hRval]; ring
      rw [he, add_ring_tmod s.lastAckSent (srSeqRange w) h0 hR]
      exact Int.tmod_eq_of_lt h0 h1
    rw [hidx]
    show writeBool s.buffer s.lastAckSent false s.lastAckSent = false
    unfold writeBool
    rw [if_pos rfl]
  · rw [srSweep_of_guard_false w _ s (by simpa using hg)]
    simpa using hg

theorem srSweep_las_bounds (w : Int) (hw : 1 ≤ w) :
    ∀ (n : Nat) (s : SRState), 0 ≤ s.lastAckSent →
      s.lastAckSent < srSeqRange w →
      0 ≤ (srSweep w n s).lastAckSent ∧
      (srSweep w n s).lastAckSent < srSeqRange w := by
  intro n
  induction n with
  | zero => intro s h0 h1; exact ⟨h0, h1⟩
  | succ n ih =>
      intro s h0 h1
      by_cases hg : srGuard w s
      · rw [srSweep_succ, if_pos hg]
        obtain ⟨ha0, ha1⟩ := srAdvance_las_bounds w hw s h0
        exact ih (srAdvance w s) ha0 ha1
      · rw [srSweep_succ, if_neg hg]
        exact ⟨h0, h1⟩

theorem srMark_fields (w : Int) (s : SRState) (seq : Int) :
    (srMark w s seq).lastAckSent = s.lastAckSent ∧
    (srMark w s seq).largestAccFrame = s.largestAccFrame := by
  unfold srMark
  by_cases h : 0 < srOffset w s.largestAccFrame seq
  · rw [if_pos h]
    exact ⟨rfl, rfl⟩
  · rw [if_neg h]
    exact ⟨rfl, rfl⟩

theorem srReach_las_bounds (w : Int) (hw : 1 ≤ w) (s : SRState)
    (h : SRReach w s) :
    0 ≤ s.lastAckSent ∧ s.lastAckSent < srSeqRange w := by
  induction h with
  | init =>
      constructor
      · show (0 : Int) ≤ srSeqRange w - 1
        unfold srSeqRange
        omega
      · show srSeqRange w - 1 < srSeqRange w
        omega
  | step s seq hs ih =>
      obtain ⟨hm, _⟩ := srMark_fields w s seq
      exact srSweep_las_bounds w hw (srSeqRange w).toNat (srMark w s seq)
        (by rw [hm]; exact ih.1) (by rw [hm]; exact ih.2)

/-- Between receives the fold loop has left nothing foldable: the entry just
ahead of `lastAckSent` is unoccupied at every reachable state. -/
theorem srReach_guard_false (w : Int) (hw : 1 ≤ w) (s : SRState)
    (h : SRReach w s) : srGuard w s = false := by
  induction h with
  | init => rfl
  | step s seq hs ih =>
      obtain ⟨hm, _⟩ := srMark_fields w s seq
      obtain ⟨hb0, hb1⟩ := srReach_las_bounds w hw s hs
      exact srSweep_post_guard_false w hw (srMark w s seq)
        (by rw [hm]; exact hb0) (by rw [hm]; exact hb1)

/-- The fold loop advances `lastAckSent` by exactly its iteration count, and
every ring position it advances through was occupied in the map before the
fold started. -/
theorem srSweep_no_gap (w : Int) (hw : 1 ≤ w) :
    ∀ (n : Nat) (st : SRState), 0 ≤ st.lastAckSent →
      st.lastAckSent < srSeqRange w →
      (srSweep w n st).lastAckSent
        = (st.lastAckSent + (srSweepCount w n st : Int)).tmod (srSeqRange w) ∧
      ∀ j : Nat, 1 ≤ j → j ≤ srSweepCount w n st →
        st.buffer ((st.lastAckSent + (j : Int)).tmod (srSeqRange w)) = true := by
  intro n
  have hR : (0 : Int) < srSeqRange w := by unfold srSeqRange; omega
  induction n with
  | zero =>
      intro st h0 h1
      constructor
      · show st.lastAckSent
            = (st.lastAckSent + ((srSweepCount w 0 st : Nat) : Int)).tmod
              (srSeqRange w)
        show st.lastAckSent
            = (st.lastAckSent + ((0 : Nat) : Int)).tmod (srSeqRange w)
        rw [Nat.cast_zero, add_zero]
        exact (Int.tmod_eq_of_lt h0 h1).symm
      · intro j hj1 hj2
        have : srSweepCount w 0 st = 0 := rfl
        omega
  | succ n ih =>
      intro st h0 h1
      by_cases hg : srGuard w st
      · have hsw : srSweep w (n + 1) st = srSweep w n (srAdvance w st) := by
          rw [srSweep_succ, if_pos hg]
        have hct : srSweepCount w (n + 1) st
            = srSweepCount w n (srAdvance w st) + 1 := by
          rw [srSweepCount_succ, if_pos hg]
        obtain ⟨ha0, ha1⟩ := srAdvance_las_bounds w hw st h0
        obtain ⟨ih1, ih2⟩ := ih (srAdvance w st) ha0 ha1
        constructor
        · rw [hsw, hct, ih1]
          show (((st.lastAckSent + 1).tmod (srSeqRange w))
                + ((srSweepCount w n (srAdvance w st) : Nat) : Int)).tmod
                (srSeqRange w)
              = _
          rw [add_tmod_left_eq (st.lastAckSent + 1) _ (srSeqRange w)
            (by omega) (by omega) hR]
          congr 1
          push_cast
          ring
        · intro j hj1 hj2
          rw [hct] at hj2
          by_cases hj : j = 1
          · subst hj
            unfold srGuard at hg
            simpa using hg
          · have hmem := ih2 (j - 1) (by omega) (by omega)
            have hc : ((j - 1 : Nat) : Int) = (j : Int) - 1 := by omega
            rw [hc] at hmem
            have hidx : ((srAdvance w st).lastAckSent + ((j : Int) - 1)).tmod
                  (srSeqRange w)
                = (st.lastAckSent + (j : Int)).tmod (srSeqRange w) := by
              show (((st.lastAckSent + 1).tmod (srSeqRange w))
                  + ((j : Int) - 1)).tmod (srSeqRange w) = _
              rw [add_tmod_left_eq (st.lastAckSent + 1) ((j : Int) - 1)
                (srSeqRange w) (by omega) (by omega) hR]
              have he : st.lastAckSent + 1 + ((j : Int) - 1)
                  = st.lastAckSent + (j : Int) := by ring
              rw [he]
            rw [hidx] at hmem
            have hval : writeBool st.buffer st.lastAckSent false
                ((st.lastAckSent + (j : Int)).tmod (srSeqRange w)) = true := hmem
            unfold writeBool at hval
            by_cases he : (st.lastAckSent + (j : Int)).tmod (srSeqRange w)
                = st.lastAckSent
            · rw [if_pos he] at hval
              exact Bool.noConfusion hval
            · rw [if_neg he] at hval
              exact hval
      · have hsw : srSweep w (n + 1) st = st := by
          rw [srSweep_succ, if_neg hg]
        have hct : srSweepCount w (n + 1) st = 0 := by
          rw [srSweepCount_succ, if_neg hg]
        constructor
        · rw [hsw, hct, Nat.cast_zero, add_zero]
          exact (Int.tmod_eq_of_lt h0 h1).symm
        · intro j hj1 hj2
          rw [hct] at hj2
          omega

/--
C5 (confirmed): throughout `serverEarlyRetrans`, `lastAckSent` changes only
in the fold loop of lines 221-225, and on each receive it advances by
exactly the loop's iteration count, every ring position it advances through
being occupied (`true`) in the occupancy map at the start of the fold — so
`lastAckSent` never moves past a sequence number that has not been received.
-/
theorem c5_no_gap_advancement (w : Int) (hw : 1 ≤ w) (s : SRState)
    (hr : SRReach w s) (seq : Int) :
    (srStep w s seq).1.lastAckSent
      = (s.lastAckSent
          + (srSweepCount w (srSeqRange w).toNat (srMark w s seq) : Int)).tmod
          (srSeqRange w) ∧
    ∀ j : Nat, 1 ≤ j →
      j ≤ srSweepCount w (srSeqRange w).toNat (srMark w s seq) →
      (srMark w s seq).buffer
        ((s.lastAckSent + (j : Int)).tmod (srSeqRange w)) = true := by
  obtain ⟨hb0, hb1⟩ := srReach_las_bounds w hw s hr
  obtain ⟨hm, _⟩ := srMark_fields w s seq
  obtain ⟨h1, h2⟩ := srSweep_no_gap w hw (srSeqRange w).toNat (srMark w s seq)
    (by rw [hm]; exact hb0) (by rw [hm]; exact hb1)
  constructor
  · show (srSweep w (srSeqRange w).toNat (srMark w s seq)).lastAckSent = _
    rw [h1, hm]
  · intro j hj1 hj2
    have hmem := h2 j hj1 hj2
    rw [hm] at hmem
    exact hmem

/-- Witness for C5: `windowSize = 1`, initial state, in-window frame 0
arrives — `lastAckSent` advances by the fold count (here one step), through
the just-marked entry 0. -/
theorem c5_no_gap_advancement_witness :
    (srStep 1 (srInit 1) 0).1.lastAckSent
      = ((srInit 1).lastAckSent
          + (srSweepCount 1 (srSeqRange 1).toNat (srMark 1 (srInit 1) 0) : Int)).tmod
          (srSeqRange 1) ∧
    (srMark 1 (srInit 1) 0).buffer
        (((srInit 1).lastAckSent + ((1 : Nat) : Int)).tmod (srSeqRange 1)) = true :=
  ⟨(c5_no_gap_advancement 1 (by decide) (srInit 1) SRReach.init 0).1,
   (c5_no_gap_advancement 1 (by decide) (srInit 1) SRReach.init 0).2 1
     (le_refl 1) (by decide)⟩

/--
C6 (confirmed): when `serverEarlyRetrans` receives a frame whose offset is
`<= 0`, the whole state (occupancy map, `lastAckSent`, `largestAccFrame`) is
unchanged, the do-while of line 229 repeats (the frame is not counted toward
the `max` distinct messages), and the repeated cumulative acknowledgment
`(lastAckSent + 1) % seqRange` is still sent.
-/
theorem c6_stale_frame_discarded (w : Int) (hw : 1 ≤ w) (s : SRState)
    (hr : SRReach w s) (seq : Int)
    (hoff : srOffset w s.largestAccFrame seq ≤ 0) :
    (srStep w s seq).1 = s ∧
    (srStep w s seq).2.1 = false ∧
    (srStep w s seq).2.2 = (s.lastAckSent + 1).tmod (srSeqRange w) := by
  have hmark : srMark w s seq = s := by
    unfold srMark
    rw [if_neg (not_lt.mpr hoff)]
  have hguard : srGuard w s = false := srReach_guard_false w hw s hr
  have hsweep : srSweep w (srSeqRange w).toNat s = s :=
    srSweep_of_guard_false w _ s hguard
  refine ⟨?_, ?_, ?_⟩
  · show srSweep w (srSeqRange w).toNat (srMark w s seq) = s
    rw [hmark, hsweep]
  · show decide (0 < srOffset w s.largestAccFrame seq) = false
    exact decide_eq_false (not_lt.mpr hoff)
  · show ((srSweep w (srSeqRange w).toNat (srMark w s seq)).lastAckSent
        + 1).tmod (srSeqRange w) = (s.lastAckSent + 1).tmod (srSeqRange w)
    rw [hmark, hsweep]

/-- Witness for C6: `windowSize = 1`, initial state
(`largestAccFrame = 0`, `lastAckSent = 2`), stale frame 1 arrives
(offset `= -1 <= 0`): state unchanged, loop repeats, ack `0` re-sent. -/
theorem c6_stale_frame_discarded_witness :
    (srStep 1 (srInit 1) 1).1 = srInit 1 ∧
    (srStep 1 (srInit 1) 1).2.1 = false ∧
    (srStep 1 (srInit 1) 1).2.2
      = ((srInit 1).lastAckSent + 1).tmod (srSeqRange 1) :=
  c6_stale_frame_discarded 1 (by decide) (srInit 1) SRReach.init 1 (by decide)

/--
C7 (confirmed): after every single frame received by `serverEarlyRetrans` —
new, duplicate, or out of range — exactly one acknowledgment is sent
(line 228 runs once per receive), its value is
`(lastAckSent + 1) % seqRange` computed from the POST-fold `lastAckSent`,
and at that point the contiguous run has been fully folded in: the entry at
the acknowledged (next-expected) sequence number is unoccupied.
-/
theorem c7_one_ack_after_fold (w : Int) (hw : 1 ≤ w) (s : SRState)
    (hr : SRReach w s) (seq : Int) :
    (srStep w s seq).2.2
      = ((srStep w s seq).1.lastAckSent + 1).tmod (srSeqRange w) ∧
    (srStep w s seq).1.buffer
        (((srStep w s seq).1.lastAckSent + 1).tmod (srSeqRange w)) = false := by
  constructor
  · rfl
  · exact srReach_guard_false w hw _ (SRReach.step s seq hr)

/-- Witness for C7 at `windowSize = 1`, initial state, frame 0 received. -/
theorem c7_one_ack_after_fold_witness :
    (srStep 1 (srInit 1) 0).2.2
      = ((srStep 1 (srInit 1) 0).1.lastAckSent + 1).tmod (srSeqRange 1) ∧
    (srStep 1 (srInit 1) 0).1.buffer
        (((srStep 1 (srInit 1) 0).1.lastAckSent + 1).tmod (srSeqRange 1))
      = false :=
  c7_one_ack_after_fold 1 (by decide) (srInit 1) SRReach.init 0
